import Mathlib

/-!
Shallow embedding of the task subsystem of the `kyrosle/os` kernel
(`src/os/src/task/mod.rs`, `src/os/src/task/context.rs`, `src/os/src/sync/up.rs`).

Machine words (`usize`) are modelled as `Nat`: no claim below depends on
64-bit wrap-around, and the one subtraction in the code
(`refresh_stop_watch`) is exercised only under the monotone-clock
hypothesis that makes truncated `Nat` subtraction agree with the machine.
Calls to the external microsecond clock `get_time_us()` are modelled by
passing the sampled value `now` as an explicit argument.  Console output
(`println!`) is modelled as a list of emitted lines.  The hardware
context-switch routine `switch::__switch` saves and restores machine
registers, which are outside the embedding; its effect on `task_cx`
fields is therefore not modelled (the spec itself calls those fields
stale while a task runs), and the measured switch duration sampled
around it is abstracted as one elapsed-time argument.
-/

namespace OsTask

/-- Task status, from `src/os/src/task/task.rs` as used throughout
`task/mod.rs`: `UnInit`, `Ready`, `Running`, `Exited`. -/
inductive TaskStatus where
  | UnInit
  | Ready
  | Running
  | Exited
deriving DecidableEq, Repr

/-- Task context (`src/os/src/task/context.rs`): return address, kernel
stack pointer, and the twelve callee-saved registers s0..s11. -/
structure TaskContext where
  ra : Nat
  sp : Nat
  s : List Nat
deriving DecidableEq, Repr

/-- `TaskContext::zero_init`: all fields zero. -/
def TaskContext.zero_init : TaskContext :=
  { ra := 0, sp := 0, s := List.replicate 12 0 }

/-- `TaskContext::goto_restore(kstack_ptr)`.  The address of the external
assembly symbol `__restore` is passed as the explicit argument
`restore_addr`. -/
def TaskContext.goto_restore (restore_addr kstack_ptr : Nat) : TaskContext :=
  { ra := restore_addr, sp := kstack_ptr, s := List.replicate 12 0 }

/-- Task control block, fields as used in `task/mod.rs`:
`task_cx`, `task_status`, `kernel_time`, `user_time`. -/
structure TaskControlBlock where
  task_cx : TaskContext
  task_status : TaskStatus
  kernel_time : Nat
  user_time : Nat
deriving DecidableEq, Repr

/-- The all-default TCB the boot code fills the array with
(`task_cx: zero_init, task_status: UnInit, kernel_time: 0, user_time: 0`). -/
def TaskControlBlock.uninit : TaskControlBlock :=
  { task_cx := TaskContext.zero_init, task_status := .UnInit,
    kernel_time := 0, user_time := 0 }

/-- `TaskManagerInner`: task list, index of the current task, and the
stop-watch timestamp. The fixed `[TaskControlBlock; MAX_APP_NUM]` array is
modelled as a list whose length is the capacity. -/
structure TaskManagerInner where
  tasks : List TaskControlBlock
  current_task : Nat
  stop_watch : Nat
deriving DecidableEq, Repr

/-- `TaskManagerInner::refresh_stop_watch`: returns the microseconds since
the previous refresh and stores the fresh sample.  `now` models the value
returned by `get_time_us()`. -/
def TaskManagerInner.refresh_stop_watch (inner : TaskManagerInner) (now : Nat) :
    Nat × TaskManagerInner :=
  let start_time := inner.stop_watch
  (now - start_time, { inner with stop_watch := now })

/-- The whole kernel-visible state of the task subsystem: the
`TaskManager` (`num_app` plus `inner`), the global switch-time counter
`SWITCH_TIME_COUNT`, the console output so far, and whether the machine
has been shut down through the SBI. -/
structure KernelState where
  num_app : Nat
  inner : TaskManagerInner
  switch_time_count : Nat
  output : List String
  halted : Bool
deriving DecidableEq, Repr

/-- `get_switch_time_count()`. -/
def get_switch_time_count (s : KernelState) : Nat :=
  s.switch_time_count

/-- Modelled from the spec: the SBI shutdown facility (`src/os/src/sbi.rs`
is not part of the provided sources).  Per the spec it "shuts the machine
down via the SBI interface"; we record that as `halted := true`. -/
def sbi_shutdown (s : KernelState) : KernelState :=
  { s with halted := true }

/-- Status of slot `i`; out-of-range reads yield the default TCB (the Rust
code never reads out of range on the paths we prove about). -/
def statusAt (s : KernelState) (i : Nat) : TaskStatus :=
  (s.inner.tasks.getD i TaskControlBlock.uninit).task_status

/-- Kernel-time counter of slot `i`. -/
def kernelTimeAt (s : KernelState) (i : Nat) : Nat :=
  (s.inner.tasks.getD i TaskControlBlock.uninit).kernel_time

/-- User-time counter of slot `i`. -/
def userTimeAt (s : KernelState) (i : Nat) : Nat :=
  (s.inner.tasks.getD i TaskControlBlock.uninit).user_time

/-- `TaskManager::mark_current_suspended`: credit the elapsed kernel time
to the current task and set its status to `Ready`. -/
def mark_current_suspended (now : Nat) (s : KernelState) : KernelState :=
  let current := s.inner.current_task
  let p := s.inner.refresh_stop_watch now
  let inner := p.2
  let t := inner.tasks.getD current TaskControlBlock.uninit
  let t := { t with kernel_time := t.kernel_time + p.1, task_status := .Ready }
  { s with inner := { inner with tasks := inner.tasks.set current t } }

/-- The line printed by `mark_current_exited`:
`[task {id} exited. user_time: {ut} ms, kernel_time: {kt} ms.]`. -/
def exitLine (id ut kt : Nat) : String :=
  "[task " ++ toString id ++ " exited. user_time: " ++ toString ut ++
    " ms, kernel_time: " ++ toString kt ++ " ms.]"

/-- `TaskManager::mark_current_exited`: credit the elapsed kernel time,
print the termination summary, and set the status to `Exited`. -/
def mark_current_exited (now : Nat) (s : KernelState) : KernelState :=
  let current := s.inner.current_task
  let p := s.inner.refresh_stop_watch now
  let inner := p.2
  let t0 := inner.tasks.getD current TaskControlBlock.uninit
  let t1 := { t0 with kernel_time := t0.kernel_time + p.1 }
  let line := exitLine current t1.user_time t1.kernel_time
  let t2 := { t1 with task_status := .Exited }
  { s with inner := { inner with tasks := inner.tasks.set current t2 },
           output := s.output ++ [line] }

/-- `TaskManager::user_time_start`: credit the elapsed time to
`kernel_time` of the current task. -/
def user_time_start (now : Nat) (s : KernelState) : KernelState :=
  let current := s.inner.current_task
  let p := s.inner.refresh_stop_watch now
  let inner := p.2
  let t := inner.tasks.getD current TaskControlBlock.uninit
  let t := { t with kernel_time := t.kernel_time + p.1 }
  { s with inner := { inner with tasks := inner.tasks.set current t } }

/-- `TaskManager::user_time_end`: credit the elapsed time to `user_time`
of the current task. -/
def user_time_end (now : Nat) (s : KernelState) : KernelState :=
  let current := s.inner.current_task
  let p := s.inner.refresh_stop_watch now
  let inner := p.2
  let t := inner.tasks.getD current TaskControlBlock.uninit
  let t := { t with user_time := t.user_time + p.1 }
  { s with inner := { inner with tasks := inner.tasks.set current t } }

/-- `TaskManager::find_next_task`: scan ids `current+1 .. current+num_app`
(inclusive), reduce each modulo `num_app`, return the first whose status
is `Ready`. -/
def find_next_task (s : KernelState) : Option Nat :=
  let current := s.inner.current_task
  ((List.range' (current + 1) s.num_app).map (fun id => id % s.num_app)).find?
    (fun id => decide (statusAt s id = TaskStatus.Ready))

/-- Remainder with the machine's division-by-zero abort made explicit:
`none` models the Rust panic `attempt to calculate the remainder with a
divisor of zero`. -/
def checkedMod (a b : Nat) : Option Nat :=
  if b = 0 then none else some (a % b)

/-- Abort-aware evaluation of the body of `find_next_task`, mirroring the
lazy Rust iterator chain element by element: the raw id is reduced with
`checkedMod` (abort when `num_app = 0`), the slot is read with a
bounds-checked index (abort on out-of-range, Rust's index panic), and the
scan stops at the first `Ready` slot. The outer `none` is an abort; a
normal return is `some result`. -/
def findGo (s : KernelState) : List Nat → Option (Option Nat)
  | [] => some none
  | id :: rest =>
    match checkedMod id s.num_app with
    | none => none
    | some i =>
      match s.inner.tasks.get? i with
      | none => none
      | some t =>
        if t.task_status = TaskStatus.Ready then some (some i) else findGo s rest

/-- `find_next_task` with every possible abort (division by zero,
out-of-range index) made explicit. -/
def find_next_task_checked (s : KernelState) : Option (Option Nat) :=
  findGo s (List.range' (s.inner.current_task + 1) s.num_app)

/-- The two lines printed on the no-ready-task path of `run_next_task`. -/
def completedLines (switch_total : Nat) : List String :=
  ["All applications completed!",
   "task switch time: " ++ toString switch_total ++ " us"]

/-- `TaskManager::run_next_task`.  On the `Some(next)` branch the chosen
task is marked `Running`, `current_task` is updated, and `__switch` runs;
the switch-time delta the instrumentation accumulates (difference of the
two `get_time_us()` samples around the hardware switch) is the argument
`tswitch`.  On the `None` branch the code only prints the two summary
lines and returns; there is no shutdown call in the source. -/
def run_next_task (tswitch : Nat) (s : KernelState) : KernelState :=
  match find_next_task s with
  | some next =>
    let t := s.inner.tasks.getD next TaskControlBlock.uninit
    let inner := { s.inner with
      tasks := s.inner.tasks.set next { t with task_status := .Running },
      current_task := next }
    { s with inner := inner,
             switch_time_count := s.switch_time_count + tswitch }
  | none =>
    { s with output := s.output ++ completedLines (get_switch_time_count s) }

/-- What `run_first_task` hands to `__switch`: the state at the moment of
the call, the throwaway zero-initialized "current" context, and the
context loaded as "next". -/
structure FirstTaskOutcome where
  state : KernelState
  switch_current : TaskContext
  switch_next : TaskContext
deriving DecidableEq, Repr

/-- `TaskManager::run_first_task`: mark `tasks[0]` `Running`, snapshot the
stop watch, and call `__switch(&mut zero_init, &tasks[0].task_cx)`.  The
only abort in the body is the `tasks[0]` index (`none` iff the array is
empty); the function performs no check of `num_app`. -/
def run_first_task (now : Nat) (s : KernelState) : Option FirstTaskOutcome :=
  match s.inner.tasks.get? 0 with
  | none => none
  | some task0 =>
    let task0 := { task0 with task_status := TaskStatus.Running }
    let next_cx := task0.task_cx
    let inner0 := { s.inner with tasks := s.inner.tasks.set 0 task0 }
    let p := inner0.refresh_stop_watch now
    some { state := { s with inner := p.2 },
           switch_current := TaskContext.zero_init,
           switch_next := next_cx }

/-- `suspend_current_and_run_next`. -/
def suspend_current_and_run_next (now tswitch : Nat) (s : KernelState) :
    KernelState :=
  run_next_task tswitch (mark_current_suspended now s)

/-- `exit_current_and_run_exit`. -/
def exit_current_and_run_exit (now tswitch : Nat) (s : KernelState) :
    KernelState :=
  run_next_task tswitch (mark_current_exited now s)

/-- One slot of the boot-time task array: the first `num_app` slots get a
`goto_restore` context and status `Ready`, the rest stay `uninit`
(`lazy_static!` initializer of `TASK_MANAGER`). -/
def initTCB (restore_addr : Nat) (init_app_cx : Nat → Nat) (num_app i : Nat) :
    TaskControlBlock :=
  if i < num_app then
    { task_cx := TaskContext.goto_restore restore_addr (init_app_cx i),
      task_status := .Ready, kernel_time := 0, user_time := 0 }
  else TaskControlBlock.uninit

/-- The boot state built by the `lazy_static!` initializer of
`TASK_MANAGER`.  `cap` is `MAX_APP_NUM`; `init_app_cx` models the external
loader function of the same name (its values are opaque here). -/
def initState (cap num_app restore_addr : Nat) (init_app_cx : Nat → Nat) :
    KernelState :=
  { num_app := num_app,
    inner := { tasks := (List.range cap).map (initTCB restore_addr init_app_cx num_app),
               current_task := 0, stop_watch := 0 },
    switch_time_count := 0, output := [], halted := false }

/-- Number of TCBs whose status is `Running`. -/
def countRunning (s : KernelState) : Nat :=
  s.inner.tasks.countP (fun t => decide (t.task_status = TaskStatus.Running))

/-- States reachable through the public surface of the task subsystem:
boot initialization, then `run_first_task` once, then any sequence of
`suspend_current_and_run_next`, `exit_current_and_run_exit`,
`user_time_start`, `user_time_end` (the `mark_*` and `run_next_task`
functions are private and reached only through the two compound
operations). The `Bool` index records whether `run_first_task` has
dispatched yet. -/
inductive Reachable : Bool → KernelState → Prop where
  | init (cap num_app restore_addr : Nat) (init_app_cx : Nat → Nat)
      (hn : 1 ≤ num_app) (hcap : num_app ≤ cap) :
      Reachable false (initState cap num_app restore_addr init_app_cx)
  | first (now : Nat) (s : KernelState) (o : FirstTaskOutcome) :
      Reachable false s → run_first_task now s = some o →
      Reachable true o.state
  | suspend (now tswitch : Nat) (s : KernelState) :
      Reachable true s →
      Reachable true (suspend_current_and_run_next now tswitch s)
  | exited (now tswitch : Nat) (s : KernelState) :
      Reachable true s →
      Reachable true (exit_current_and_run_exit now tswitch s)
  | uts (now : Nat) (s : KernelState) :
      Reachable true s → Reachable true (user_time_start now s)
  | ute (now : Nat) (s : KernelState) :
      Reachable true s → Reachable true (user_time_end now s)

/-- The four operations of the claim on time-counter monotonicity. -/
inductive TimedOp where
  | suspendOp
  | exitOp
  | utsOp
  | uteOp
deriving DecidableEq, Repr

/-- Apply one timed operation at clock sample `now`. -/
def applyTimedOp : TimedOp → Nat → KernelState → KernelState
  | .suspendOp, now, s => mark_current_suspended now s
  | .exitOp, now, s => mark_current_exited now s
  | .utsOp, now, s => user_time_start now s
  | .uteOp, now, s => user_time_end now s

/-- Run a sequence of timed operations. -/
def runTrace (events : List (TimedOp × Nat)) (s : KernelState) : KernelState :=
  events.foldl (fun st e => applyTimedOp e.1 e.2 st) s

/-- Modelled from the spec: `UPSafeCell` (`src/os/src/sync/up.rs`) defers
entirely to `core::cell::RefCell`, which is external standard-library
code; its runtime borrow flag is modelled here per the spec's contract:
`exclusive_access` hands out the single scoped mutable borrow, a second
access while one is live panics (`none`), and the borrow is released when
the handle is dropped at scope exit. -/
structure UPSafeCell (T : Type) where
  value : T
  borrowed : Bool
deriving DecidableEq, Repr

/-- `UPSafeCell::new`. -/
def UPSafeCell.new (value : T) : UPSafeCell T :=
  { value := value, borrowed := false }

/-- `UPSafeCell::exclusive_access` (that is, `RefCell::borrow_mut`):
`none` models the borrow-conflict panic; on success the borrow flag is
set and the caller receives the inner value. -/
def UPSafeCell.exclusive_access (c : UPSafeCell T) : Option (T × UPSafeCell T) :=
  if c.borrowed then none else some (c.value, { c with borrowed := true })

/-- Dropping the `RefMut` at scope exit: the (possibly updated) value `v`
is written back and the borrow flag clears. -/
def UPSafeCell.drop_borrow (_c : UPSafeCell T) (v : T) : UPSafeCell T :=
  { value := v, borrowed := false }

/-- A state in which every application has exited: two apps, both
`Exited`, 7 microseconds of accumulated switch time. -/
def allExitedState : KernelState :=
  { num_app := 2,
    inner :=
      { tasks :=
          [{ task_cx := TaskContext.zero_init, task_status := .Exited,
             kernel_time := 3, user_time := 4 },
           { task_cx := TaskContext.zero_init, task_status := .Exited,
             kernel_time := 5, user_time := 6 }],
        current_task := 1, stop_watch := 0 },
    switch_time_count := 7, output := [], halted := false }

/-- A two-task state in which slot 0 has exited and slot 1 is ready. -/
def rrWitnessState : KernelState :=
  { num_app := 2,
    inner :=
      { tasks :=
          [{ task_cx := TaskContext.zero_init, task_status := .Exited,
             kernel_time := 1, user_time := 2 },
           { task_cx := TaskContext.zero_init, task_status := .Ready,
             kernel_time := 0, user_time := 0 }],
        current_task := 0, stop_watch := 0 },
    switch_time_count := 0, output := [], halted := false }

/-- A one-task state whose task is `Running`, stop watch at 3 µs. -/
def runningWitnessState : KernelState :=
  { num_app := 1,
    inner :=
      { tasks :=
          [{ task_cx := TaskContext.zero_init, task_status := .Running,
             kernel_time := 10, user_time := 20 }],
        current_task := 0, stop_watch := 3 },
    switch_time_count := 0, output := [], halted := false }

/-- A small trace of timed operations with increasing clock samples. -/
def traceWitnessEvents : List (TimedOp × Nat) :=
  [(.suspendOp, 5), (.uteOp, 9)]

/-- Boot invariant: what holds of the `TASK_MANAGER` state before
`run_first_task` has dispatched. -/
def BootInv (s : KernelState) : Prop :=
  1 ≤ s.num_app ∧ s.num_app ≤ s.inner.tasks.length ∧
  s.inner.current_task = 0 ∧
  (∀ i, i < s.num_app → statusAt s i = .Ready) ∧
  (∀ j, s.num_app ≤ j → statusAt s j = .UnInit)

/-- Invariant of every state after the first dispatch: either exactly the
current task is `Running`, or every application slot has `Exited` and
nothing is `Running`. -/
def StartedInv (s : KernelState) : Prop :=
  1 ≤ s.num_app ∧ s.num_app ≤ s.inner.tasks.length ∧
  s.inner.current_task < s.num_app ∧
  (∀ i, i < s.num_app → statusAt s i ≠ .UnInit) ∧
  (∀ j, s.num_app ≤ j → statusAt s j = .UnInit) ∧
  ((statusAt s s.inner.current_task = .Running ∧
      ∀ j, j ≠ s.inner.current_task → statusAt s j ≠ .Running) ∨
    ((∀ i, i < s.num_app → statusAt s i = .Exited) ∧
      ∀ j, statusAt s j ≠ .Running))

/-- Invariant of the transient state between `mark_current_*` and the
`run_next_task` half of the two compound scheduling operations: shape
facts plus the absence of any `Running` slot. -/
def MidInv (s : KernelState) : Prop :=
  1 ≤ s.num_app ∧ s.num_app ≤ s.inner.tasks.length ∧
  s.inner.current_task < s.num_app ∧
  (∀ i, i < s.num_app → statusAt s i ≠ .UnInit) ∧
  (∀ j, s.num_app ≤ j → statusAt s j = .UnInit) ∧
  (∀ j, statusAt s j ≠ .Running)

end OsTask

namespace OsTask

/-! ## List helper lemmas -/

theorem getD_set_eq_of_lt {α : Type _} (l : List α) (i : Nat) (a d : α)
    (h : i < l.length) : (l.set i a).getD i d = a := by
  induction l generalizing i with
  | nil => simp at h
  | cons x xs ih =>
    cases i with
    | zero => rfl
    | succ i => exact ih i (by simp at h; omega)

theorem getD_set_ne {α : Type _} (l : List α) (i j : Nat) (a d : α)
    (h : i ≠ j) : (l.set i a).getD j d = l.getD j d := by
  induction l generalizing i j with
  | nil => rfl
  | cons x xs ih =>
    cases i with
    | zero =>
      cases j with
      | zero => exact absurd rfl h
      | succ j => rfl
    | succ i =>
      cases j with
      | zero => rfl
      | succ j => simpa using ih i j (by omega)

theorem getD_set_cases {α : Type _} (l : List α) (c j : Nat) (a d : α) :
    (l.set c a).getD j d =
      if j = c ∧ c < l.length then a else l.getD j d := by
  by_cases hj : j = c
  · subst hj
    by_cases hc : j < l.length
    · simp only [hc, and_self, if_true]
      exact getD_set_eq_of_lt l j a d hc
    · simp only [hc, and_false, if_false]
      rw [List.set_eq_of_length_le (Nat.le_of_not_lt hc)]
  · simp only [hj, false_and, if_false]
    exact getD_set_ne l c j a d (fun e => hj e.symm)

theorem countP_eq_zero_of_getD {α : Type _} (p : α → Bool) (d : α)
    (l : List α) (h : ∀ j, j < l.length → p (l.getD j d) = false) :
    l.countP p = 0 := by
  induction l with
  | nil => rfl
  | cons x xs ih =>
    rw [List.countP_cons]
    have h0 : p x = false := by simpa using h 0 (by simp)
    have hxs : xs.countP p = 0 :=
      ih (fun j hj => by simpa using h (j + 1) (by simp; omega))
    simp [h0, hxs]

theorem countP_pos_of_getD {α : Type _} (p : α → Bool) (d : α)
    (l : List α) (i : Nat) (hi : i < l.length)
    (hp : p (l.getD i d) = true) : 0 < l.countP p := by
  induction l generalizing i with
  | nil => simp at hi
  | cons x xs ih =>
    rw [List.countP_cons]
    cases i with
    | zero =>
      have hx : p x = true := by simpa using hp
      simp [hx]
    | succ i =>
      have := ih i (by simp at hi; omega) (by simpa using hp)
      omega

theorem countP_le_one_of_getD {α : Type _} (p : α → Bool) (d : α)
    (l : List α) (c : Nat)
    (h : ∀ j, j < l.length → j ≠ c → p (l.getD j d) = false) :
    l.countP p ≤ 1 := by
  induction l generalizing c with
  | nil => simp
  | cons x xs ih =>
    rw [List.countP_cons]
    cases c with
    | zero =>
      have hxs : xs.countP p = 0 :=
        countP_eq_zero_of_getD p d xs
          (fun j hj => by simpa using h (j + 1) (by simp; omega) (by omega))
      rw [hxs]
      cases hpx : p x <;> simp
    | succ c =>
      have hx : p x = false := by simpa using h 0 (by simp) (by omega)
      have hxs := ih c (fun j hj hne => by
        simpa using h (j + 1) (by simp; omega) (by omega))
      simp [hx]
      exact hxs

theorem getD_map_range' {α : Type _} (f : Nat → α) (d : α) :
    ∀ (n start k : Nat), k < n →
      ((List.range' start n).map f).getD k d = f (start + k) := by
  intro n
  induction n with
  | zero => intro start k hk; omega
  | succ n ih =>
    intro start k hk
    rw [List.range'_succ]
    cases k with
    | zero => simp
    | succ k =>
      simp only [List.map_cons, List.getD_cons_succ]
      rw [ih (start + 1) k (by omega)]
      congr 1
      omega

theorem find?_eq_some_iff_getD {α : Type _} (p : α → Bool) (d : α) :
    ∀ (l : List α) (a : α),
      l.find? p = some a ↔
        ∃ k, k < l.length ∧ l.getD k d = a ∧ p a = true ∧
          ∀ j, j < k → p (l.getD j d) = false := by
  intro l
  induction l with
  | nil =>
    intro a
    constructor
    · intro h; simp [List.find?] at h
    · rintro ⟨k, hk, -⟩; simp at hk
  | cons x xs ih =>
    intro a
    by_cases hx : p x = true
    · rw [List.find?_cons_of_pos _ hx]
      constructor
      · intro h
        have hxa : x = a := by injection h
        subst hxa
        exact ⟨0, by simp, rfl, hx, fun j hj => by omega⟩
      · rintro ⟨k, hk, hget, hpa, hfirst⟩
        cases k with
        | zero =>
          have : x = a := by simpa using hget
          rw [this]
        | succ k =>
          have h0 := hfirst 0 (by omega)
          simp only [List.getD_cons_zero] at h0
          rw [hx] at h0
          exact absurd h0 (by simp)
    · rw [List.find?_cons_of_neg _ hx]
      rw [ih a]
      have hxf : p x = false := by
        revert hx; cases p x <;> simp
      constructor
      · rintro ⟨k, hk, hget, hpa, hfirst⟩
        refine ⟨k + 1, by simp; omega, by simpa using hget, hpa, ?_⟩
        intro j hj
        cases j with
        | zero => simpa using hxf
        | succ j => simpa using hfirst j (by omega)
      · rintro ⟨k, hk, hget, hpa, hfirst⟩
        cases k with
        | zero =>
          exfalso
          have : x = a := by simpa using hget
          rw [this, hpa] at hxf
          exact absurd hxf (by simp)
        | succ k =>
          exact ⟨k, by simp at hk; omega, by simpa using hget, hpa,
            fun j hj => by simpa using hfirst (j + 1) (by omega)⟩

theorem exists_scan_hit (c n i : Nat) (hi : i < n) :
    ∃ k, k < n ∧ (c + 1 + k) % n = i := by
  have hn : 0 < n := by omega
  have hc' : (c + 1) % n < n := Nat.mod_lt _ hn
  by_cases h : (c + 1) % n ≤ i
  · refine ⟨i - (c + 1) % n, by omega, ?_⟩
    rw [Nat.add_mod (c + 1)]
    rw [Nat.mod_eq_of_lt (show i - (c + 1) % n < n by omega)]
    rw [Nat.mod_eq_of_lt (show (c + 1) % n + (i - (c + 1) % n) < n by omega)]
    omega
  · refine ⟨i + n - (c + 1) % n, by omega, ?_⟩
    rw [Nat.add_mod (c + 1)]
    rw [Nat.mod_eq_of_lt (show i + n - (c + 1) % n < n by omega)]
    have heq : (c + 1) % n + (i + n - (c + 1) % n) = i + n := by omega
    rw [heq, Nat.add_mod_right]
    exact Nat.mod_eq_of_lt hi

/-! ## Theorems about the embedded operations -/

/-- C8: `TaskContext::zero_init()` returns a context whose 14 words
(`ra`, `sp`, `s0`–`s11`) are all zero, and
`TaskContext::goto_restore(kstack_top)` returns a context with `ra` the
address of `__restore`, `sp` equal to `kstack_top`, and all twelve `s`
registers zero. -/
theorem task_context_init_spec (restore_addr kstack_ptr : Nat) :
    TaskContext.zero_init.ra = 0 ∧ TaskContext.zero_init.sp = 0 ∧
    TaskContext.zero_init.s = List.replicate 12 0 ∧
    TaskContext.zero_init.s.length = 12 ∧
    (TaskContext.goto_restore restore_addr kstack_ptr).ra = restore_addr ∧
    (TaskContext.goto_restore restore_addr kstack_ptr).sp = kstack_ptr ∧
    (TaskContext.goto_restore restore_addr kstack_ptr).s =
      List.replicate 12 0 := by
  exact ⟨rfl, rfl, rfl, rfl, rfl, rfl, rfl⟩

/-- C9: `exclusive_access` hands out the single scoped mutable borrow of
the inner value; a second access while a borrow is live panics (modelled
as `none`) instead of yielding a second borrow; dropping the handle
releases the borrow, after which access succeeds again. -/
theorem up_safe_cell_exclusive_access_spec {T : Type} (c : UPSafeCell T)
    (w : T) :
    (c.borrowed = false →
      c.exclusive_access = some (c.value, { c with borrowed := true })) ∧
    (c.borrowed = true → c.exclusive_access = none) ∧
    (c.drop_borrow w).borrowed = false ∧
    (c.drop_borrow w).exclusive_access =
      some (w, { value := w, borrowed := true }) := by
  refine ⟨?_, ?_, rfl, ?_⟩
  · intro h
    simp [UPSafeCell.exclusive_access, h]
  · intro h
    simp [UPSafeCell.exclusive_access, h]
  · simp [UPSafeCell.exclusive_access, UPSafeCell.drop_borrow]

/-- Witness for C9 at a concrete cell holding the number 7. -/
theorem up_safe_cell_exclusive_access_spec_witness :
    (UPSafeCell.new (7 : Nat)).borrowed = false ∧
    (UPSafeCell.new (7 : Nat)).exclusive_access =
      some (7, { value := 7, borrowed := true }) :=
  ⟨rfl, (up_safe_cell_exclusive_access_spec (UPSafeCell.new (7 : Nat)) 0).1 rfl⟩

/-- C1 (divergence witness): in a state where every application has
exited, `run_next_task` prints "All applications completed!" and the
switch-time total, but performs no SBI shutdown: the resulting state is
unchanged except for the two output lines, `halted` stays `false`, and
the function returns that state to its caller instead of halting the
machine. -/
theorem run_next_task_all_completed_no_shutdown :
    find_next_task allExitedState = none ∧
    run_next_task 0 allExitedState =
      { allExitedState with
          output := ["All applications completed!",
                     "task switch time: 7 us"] } ∧
    (run_next_task 0 allExitedState).halted = false ∧
    run_next_task 0 allExitedState ≠
      sbi_shutdown (run_next_task 0 allExitedState) := by
  refine ⟨rfl, by decide, rfl, by decide⟩

/-- C4 (counterexample): with `num_app = 0` and a 16-slot task array,
`run_first_task` does not fail: it still marks `tasks[0]` (an `UnInit`
TCB) as `Running` and hands `__switch` two zero-initialized contexts. -/
theorem run_first_task_zero_apps_counterexample :
    (run_first_task 5 (initState 16 0 0 (fun _ => 0))).map
        (fun o => (statusAt o.state 0, o.switch_current, o.switch_next)) =
      some (TaskStatus.Running, TaskContext.zero_init,
        TaskContext.zero_init) := by
  decide

/-- C10 (counterexample): with `num_app = 0` the scanned range
`current+1 .. current+num_app+1` is empty and the lazy iterator never
evaluates `id % num_app`, so `find_next_task` returns `None` normally:
the abort-aware evaluation yields `some none` (normal return of `None`),
not `none` (abort). -/
theorem find_next_task_zero_apps_counterexample :
    find_next_task_checked (initState 16 0 0 (fun _ => 0)) = some none ∧
    find_next_task (initState 16 0 0 (fun _ => 0)) = none := by
  exact ⟨rfl, rfl⟩

/-! ## The round-robin scan -/

theorem find_next_task_none_iff (s : KernelState) :
    find_next_task s = none ↔
      ∀ i, i < s.num_app → statusAt s i ≠ TaskStatus.Ready := by
  unfold find_next_task
  rw [List.find?_eq_none]
  constructor
  · intro h i hi hready
    obtain ⟨k, hk, hik⟩ := exists_scan_hit s.inner.current_task s.num_app i hi
    have hmem : i ∈ (List.range' (s.inner.current_task + 1) s.num_app).map
        (fun id => id % s.num_app) := by
      refine List.mem_map.mpr ⟨s.inner.current_task + 1 + k, ?_, hik⟩
      exact List.mem_range'_1.mpr ⟨by omega, by omega⟩
    exact h i hmem (decide_eq_true hready)
  · intro h x hx
    obtain ⟨raw, hraw, rfl⟩ := List.mem_map.mp hx
    obtain ⟨h1, h2⟩ := List.mem_range'_1.mp hraw
    have hn : 0 < s.num_app := by omega
    simp only [decide_eq_true_eq]
    exact h (raw % s.num_app) (Nat.mod_lt _ hn)

theorem find_next_task_some_props (s : KernelState) (i : Nat)
    (h : find_next_task s = some i) :
    i < s.num_app ∧ statusAt s i = TaskStatus.Ready := by
  unfold find_next_task at h
  have hp := List.find?_some h
  have hmem := List.mem_of_find?_eq_some h
  obtain ⟨raw, hraw, rfl⟩ := List.mem_map.mp hmem
  obtain ⟨h1, h2⟩ := List.mem_range'_1.mp hraw
  have hn : 0 < s.num_app := by omega
  simp only [decide_eq_true_eq] at hp
  exact ⟨Nat.mod_lt _ hn, hp⟩

/-- C2: `find_next_task` scans exactly the slots `(current+1) % num_app`,
`(current+2) % num_app`, …, `current % num_app` in that order; a `some i`
result is the first `Ready` slot in that order, and the result is `none`
iff no slot below `num_app` is `Ready`. -/
theorem find_next_task_round_robin (s : KernelState) (_hn : 1 ≤ s.num_app) :
    (∀ i, find_next_task s = some i →
      i < s.num_app ∧ statusAt s i = TaskStatus.Ready ∧
      ∃ k, k < s.num_app ∧ i = (s.inner.current_task + 1 + k) % s.num_app ∧
        ∀ j, j < k →
          statusAt s ((s.inner.current_task + 1 + j) % s.num_app) ≠
            TaskStatus.Ready) ∧
    (find_next_task s = none ↔
      ∀ i, i < s.num_app → statusAt s i ≠ TaskStatus.Ready) := by
  constructor
  · intro i h
    obtain ⟨hlt, hready⟩ := find_next_task_some_props s i h
    refine ⟨hlt, hready, ?_⟩
    unfold find_next_task at h
    rw [find?_eq_some_iff_getD _ 0] at h
    obtain ⟨k, hk, hget, hpa, hfirst⟩ := h
    have hlen : ((List.range' (s.inner.current_task + 1) s.num_app).map
        (fun id => id % s.num_app)).length = s.num_app := by simp
    rw [hlen] at hk
    rw [getD_map_range' _ 0 s.num_app (s.inner.current_task + 1) k hk] at hget
    refine ⟨k, hk, hget.symm, ?_⟩
    intro j hj hready'
    have hfj := hfirst j hj
    rw [getD_map_range' _ 0 s.num_app (s.inner.current_task + 1) j
      (by omega)] at hfj
    rw [decide_eq_true hready'] at hfj
    exact absurd hfj (by simp)
  · exact find_next_task_none_iff s

/-- Witness for C2 on a concrete two-task state. -/
theorem find_next_task_round_robin_witness :
    1 ≤ rrWitnessState.num_app ∧
    (find_next_task rrWitnessState = none ↔
      ∀ i, i < rrWitnessState.num_app →
        statusAt rrWitnessState i ≠ TaskStatus.Ready) :=
  ⟨by decide, (find_next_task_round_robin rrWitnessState (by decide)).2⟩

/-- The abort-aware scan agrees with the total model whenever every
scanned slot is in bounds; the `num_app = 0` case never evaluates the
body at all. -/
theorem findGo_eq (s : KernelState) (hn : s.num_app ≠ 0)
    (hlen : s.num_app ≤ s.inner.tasks.length) :
    ∀ l : List Nat, findGo s l =
      some ((l.map (fun id => id % s.num_app)).find?
        (fun id => decide (statusAt s id = TaskStatus.Ready))) := by
  intro l
  induction l with
  | nil => rfl
  | cons id rest ih =>
    have hlt : id % s.num_app < s.inner.tasks.length :=
      lt_of_lt_of_le (Nat.mod_lt _ (Nat.pos_of_ne_zero hn)) hlen
    have hget : s.inner.tasks.get? (id % s.num_app) =
        some (s.inner.tasks.getD (id % s.num_app) TaskControlBlock.uninit) := by
      rw [List.get?_eq_getElem?, List.getElem?_eq_getElem hlt,
        List.getD_eq_getElem _ _ hlt]
    simp only [findGo, checkedMod, hn, if_false, List.map_cons, hget]
    by_cases hr : statusAt s (id % s.num_app) = TaskStatus.Ready
    · rw [@List.find?_cons_of_pos _
        (fun id => decide (statusAt s id = TaskStatus.Ready)) (id % s.num_app)
        (List.map (fun id => id % s.num_app) rest) (decide_eq_true hr)]
      have hr' : (s.inner.tasks.getD (id % s.num_app)
          TaskControlBlock.uninit).task_status = TaskStatus.Ready := hr
      rw [if_pos hr']
    · rw [@List.find?_cons_of_neg _
        (fun id => decide (statusAt s id = TaskStatus.Ready)) (id % s.num_app)
        (List.map (fun id => id % s.num_app) rest) (by simpa using hr)]
      have hr' : ¬ (s.inner.tasks.getD (id % s.num_app)
          TaskControlBlock.uninit).task_status = TaskStatus.Ready := hr
      rw [if_neg hr']
      exact ih

/-- C10 (amended): the body of `find_next_task` aborts neither on the
modulo (the scanned range is empty when `num_app = 0`, and the lazy
iterator never evaluates `id % 0`) nor on indexing, whenever
`num_app` does not exceed the task-array capacity — a bound that holds
trivially for `num_app = 0`, where the scan returns `none` normally. -/
theorem find_next_task_checked_total (s : KernelState)
    (h : s.num_app ≤ s.inner.tasks.length) :
    find_next_task_checked s = some (find_next_task s) := by
  by_cases hn : s.num_app = 0
  · unfold find_next_task_checked find_next_task
    rw [hn]
    rfl
  · unfold find_next_task_checked find_next_task
    exact findGo_eq s hn h _

/-- Witness for the amended C10 on a concrete all-exited state. -/
theorem find_next_task_checked_total_witness :
    allExitedState.num_app ≤ allExitedState.inner.tasks.length ∧
    find_next_task_checked allExitedState =
      some (find_next_task allExitedState) :=
  ⟨by decide, find_next_task_checked_total allExitedState (by decide)⟩

/-! ## The first dispatch -/

theorem run_first_task_eq (now : Nat) (s : KernelState)
    (h : 0 < s.inner.tasks.length) :
    run_first_task now s = some
      { state := { s with inner :=
          { tasks := s.inner.tasks.set 0
              { s.inner.tasks.getD 0 TaskControlBlock.uninit with
                  task_status := TaskStatus.Running },
            current_task := s.inner.current_task,
            stop_watch := now } },
        switch_current := TaskContext.zero_init,
        switch_next :=
          (s.inner.tasks.getD 0 TaskControlBlock.uninit).task_cx } := by
  cases htask : s.inner.tasks with
  | nil => rw [htask] at h; simp at h
  | cons t ts =>
    simp [run_first_task, TaskManagerInner.refresh_stop_watch, htask]

/-- C4 (amended): `run_first_task` performs no check of `num_app`: for
every state whose task array is non-empty — `num_app = 0` included — it
marks `tasks[0]` as `Running`, snapshots the stop watch, and invokes the
context-switch primitive with a throwaway zero-initialized current
context and `tasks[0]`'s context as next; other slots are untouched. -/
theorem run_first_task_spec (now : Nat) (s : KernelState)
    (h : 0 < s.inner.tasks.length) :
    ∃ o, run_first_task now s = some o ∧
      statusAt o.state 0 = TaskStatus.Running ∧
      o.state.inner.stop_watch = now ∧
      o.state.inner.current_task = s.inner.current_task ∧
      o.switch_current = TaskContext.zero_init ∧
      o.switch_next = (s.inner.tasks.getD 0 TaskControlBlock.uninit).task_cx ∧
      (∀ j, j ≠ 0 → statusAt o.state j = statusAt s j) := by
  refine ⟨_, run_first_task_eq now s h, ?_, rfl, rfl, rfl, rfl, ?_⟩
  · show ((s.inner.tasks.set 0 _).getD 0 TaskControlBlock.uninit).task_status =
      TaskStatus.Running
    rw [getD_set_eq_of_lt _ _ _ _ h]
  · intro j hj
    show ((s.inner.tasks.set 0 _).getD j TaskControlBlock.uninit).task_status =
      statusAt s j
    rw [getD_set_ne _ _ _ _ _ (fun e => hj e.symm)]
    rfl

/-! ## Unfolded forms of the accounting operations -/

theorem mark_current_suspended_eq (now : Nat) (s : KernelState) :
    mark_current_suspended now s =
      { s with inner :=
        { tasks := s.inner.tasks.set s.inner.current_task
            { s.inner.tasks.getD s.inner.current_task TaskControlBlock.uninit with
                kernel_time := (s.inner.tasks.getD s.inner.current_task
                    TaskControlBlock.uninit).kernel_time +
                  (now - s.inner.stop_watch),
                task_status := .Ready },
          current_task := s.inner.current_task,
          stop_watch := now } } := rfl

theorem mark_current_exited_eq (now : Nat) (s : KernelState) :
    mark_current_exited now s =
      { s with
        inner :=
          { tasks := s.inner.tasks.set s.inner.current_task
              { s.inner.tasks.getD s.inner.current_task TaskControlBlock.uninit with
                  kernel_time := (s.inner.tasks.getD s.inner.current_task
                      TaskControlBlock.uninit).kernel_time +
                    (now - s.inner.stop_watch),
                  task_status := .Exited },
            current_task := s.inner.current_task,
            stop_watch := now },
        output := s.output ++
          [exitLine s.inner.current_task
            (s.inner.tasks.getD s.inner.current_task
              TaskControlBlock.uninit).user_time
            ((s.inner.tasks.getD s.inner.current_task
                TaskControlBlock.uninit).kernel_time +
              (now - s.inner.stop_watch))] } := rfl

theorem user_time_start_eq (now : Nat) (s : KernelState) :
    user_time_start now s =
      { s with inner :=
        { tasks := s.inner.tasks.set s.inner.current_task
            { s.inner.tasks.getD s.inner.current_task TaskControlBlock.uninit with
                kernel_time := (s.inner.tasks.getD s.inner.current_task
                    TaskControlBlock.uninit).kernel_time +
                  (now - s.inner.stop_watch) },
          current_task := s.inner.current_task,
          stop_watch := now } } := rfl

theorem user_time_end_eq (now : Nat) (s : KernelState) :
    user_time_end now s =
      { s with inner :=
        { tasks := s.inner.tasks.set s.inner.current_task
            { s.inner.tasks.getD s.inner.current_task TaskControlBlock.uninit with
                user_time := (s.inner.tasks.getD s.inner.current_task
                    TaskControlBlock.uninit).user_time +
                  (now - s.inner.stop_watch) },
          current_task := s.inner.current_task,
          stop_watch := now } } := rfl

/-- C6: when the current task is `Running` and in range,
`mark_current_suspended` credits the microseconds elapsed since the last
stop-watch refresh to its `kernel_time`, moves it to `Ready`, leaves its
`user_time` alone, and changes no other task's status. -/
theorem mark_current_suspended_spec (now : Nat) (s : KernelState)
    (hcur : s.inner.current_task < s.inner.tasks.length)
    (_hrun : statusAt s s.inner.current_task = TaskStatus.Running)
    (_hclock : s.inner.stop_watch ≤ now) :
    statusAt (mark_current_suspended now s) s.inner.current_task =
      TaskStatus.Ready ∧
    kernelTimeAt (mark_current_suspended now s) s.inner.current_task =
      kernelTimeAt s s.inner.current_task + (now - s.inner.stop_watch) ∧
    userTimeAt (mark_current_suspended now s) s.inner.current_task =
      userTimeAt s s.inner.current_task ∧
    ∀ j, j ≠ s.inner.current_task →
      statusAt (mark_current_suspended now s) j = statusAt s j := by
  refine ⟨?_, ?_, ?_, ?_⟩
  · simp only [mark_current_suspended_eq, statusAt]
    rw [getD_set_cases]
    simp [hcur]
  · simp only [mark_current_suspended_eq, kernelTimeAt]
    rw [getD_set_cases]
    simp [hcur]
  · simp only [mark_current_suspended_eq, userTimeAt]
    rw [getD_set_cases]
    simp [hcur]
  · intro j hj
    simp only [mark_current_suspended_eq, statusAt]
    rw [getD_set_cases]
    simp [hj]

/-- Witness for C6 on a concrete one-task `Running` state. -/
theorem mark_current_suspended_spec_witness :
    runningWitnessState.inner.current_task <
      runningWitnessState.inner.tasks.length ∧
    statusAt runningWitnessState runningWitnessState.inner.current_task =
      TaskStatus.Running ∧
    runningWitnessState.inner.stop_watch ≤ 7 ∧
    statusAt (mark_current_suspended 7 runningWitnessState)
      runningWitnessState.inner.current_task = TaskStatus.Ready :=
  ⟨by decide, by decide, by decide,
    (mark_current_suspended_spec 7 runningWitnessState (by decide) (by decide)
      (by decide)).1⟩

/-- C7: when the current task is `Running` and in range,
`mark_current_exited` credits the elapsed kernel time, transitions the
task to `Exited`, emits one summary line carrying the task id and the
final user and kernel times, and changes no other task's status. -/
theorem mark_current_exited_spec (now : Nat) (s : KernelState)
    (hcur : s.inner.current_task < s.inner.tasks.length)
    (_hrun : statusAt s s.inner.current_task = TaskStatus.Running)
    (_hclock : s.inner.stop_watch ≤ now) :
    statusAt (mark_current_exited now s) s.inner.current_task =
      TaskStatus.Exited ∧
    kernelTimeAt (mark_current_exited now s) s.inner.current_task =
      kernelTimeAt s s.inner.current_task + (now - s.inner.stop_watch) ∧
    userTimeAt (mark_current_exited now s) s.inner.current_task =
      userTimeAt s s.inner.current_task ∧
    (mark_current_exited now s).output = s.output ++
      [exitLine s.inner.current_task (userTimeAt s s.inner.current_task)
        (kernelTimeAt s s.inner.current_task + (now - s.inner.stop_watch))] ∧
    ∀ j, j ≠ s.inner.current_task →
      statusAt (mark_current_exited now s) j = statusAt s j := by
  refine ⟨?_, ?_, ?_, rfl, ?_⟩
  · simp only [mark_current_exited_eq, statusAt]
    rw [getD_set_cases]
    simp [hcur]
  · simp only [mark_current_exited_eq, kernelTimeAt]
    rw [getD_set_cases]
    simp [hcur]
  · simp only [mark_current_exited_eq, userTimeAt]
    rw [getD_set_cases]
    simp [hcur]
  · intro j hj
    simp only [mark_current_exited_eq, statusAt]
    rw [getD_set_cases]
    simp [hj]

/-- Witness for C7 on a concrete one-task `Running` state. -/
theorem mark_current_exited_spec_witness :
    runningWitnessState.inner.current_task <
      runningWitnessState.inner.tasks.length ∧
    statusAt runningWitnessState runningWitnessState.inner.current_task =
      TaskStatus.Running ∧
    runningWitnessState.inner.stop_watch ≤ 7 ∧
    (mark_current_exited 7 runningWitnessState).output =
      runningWitnessState.output ++
        [exitLine runningWitnessState.inner.current_task
          (userTimeAt runningWitnessState runningWitnessState.inner.current_task)
          (kernelTimeAt runningWitnessState runningWitnessState.inner.current_task +
            (7 - runningWitnessState.inner.stop_watch))] :=
  ⟨by decide, by decide, by decide,
    (mark_current_exited_spec 7 runningWitnessState (by decide) (by decide)
      (by decide)).2.2.2.1⟩

/-! ## Monotonicity of the per-task time counters -/

theorem timesAt_set_mono (l : List TaskControlBlock) (c : Nat)
    (t' : TaskControlBlock)
    (hk : (l.getD c TaskControlBlock.uninit).kernel_time ≤ t'.kernel_time)
    (hu : (l.getD c TaskControlBlock.uninit).user_time ≤ t'.user_time)
    (i : Nat) :
    (l.getD i TaskControlBlock.uninit).kernel_time ≤
      ((l.set c t').getD i TaskControlBlock.uninit).kernel_time ∧
    (l.getD i TaskControlBlock.uninit).user_time ≤
      ((l.set c t').getD i TaskControlBlock.uninit).user_time := by
  rw [getD_set_cases]
  by_cases h : i = c ∧ c < l.length
  · obtain ⟨rfl, hc⟩ := h
    simp only [hc, and_self, if_true]
    exact ⟨hk, hu⟩
  · simp only [h, if_false]
    exact ⟨le_refl _, le_refl _⟩

theorem applyTimedOp_stop_watch (op : TimedOp) (now : Nat) (s : KernelState) :
    (applyTimedOp op now s).inner.stop_watch = now := by
  cases op <;> rfl

theorem applyTimedOp_time_mono (op : TimedOp) (now : Nat) (s : KernelState)
    (i : Nat) :
    kernelTimeAt s i ≤ kernelTimeAt (applyTimedOp op now s) i ∧
    userTimeAt s i ≤ userTimeAt (applyTimedOp op now s) i := by
  cases op with
  | suspendOp =>
    simp only [applyTimedOp, kernelTimeAt, userTimeAt,
      mark_current_suspended_eq]
    exact timesAt_set_mono _ _ _ (by simp) (by simp) i
  | exitOp =>
    simp only [applyTimedOp, kernelTimeAt, userTimeAt, mark_current_exited_eq]
    exact timesAt_set_mono _ _ _ (by simp) (by simp) i
  | utsOp =>
    simp only [applyTimedOp, kernelTimeAt, userTimeAt, user_time_start_eq]
    exact timesAt_set_mono _ _ _ (by simp) (by simp) i
  | uteOp =>
    simp only [applyTimedOp, kernelTimeAt, userTimeAt, user_time_end_eq]
    exact timesAt_set_mono _ _ _ (by simp) (by simp) i

/-- C5: across any sequence of the accounting operations
(`mark_current_suspended`, `mark_current_exited`, `user_time_start`,
`user_time_end`) driven by a monotone microsecond clock, every task's
`kernel_time` and `user_time` counters are non-decreasing. -/
theorem time_counters_monotone (s : KernelState)
    (events : List (TimedOp × Nat)) (i : Nat)
    (hclock : List.Chain (fun a b => a ≤ b) s.inner.stop_watch
      (events.map Prod.snd)) :
    kernelTimeAt s i ≤ kernelTimeAt (runTrace events s) i ∧
    userTimeAt s i ≤ userTimeAt (runTrace events s) i := by
  induction events generalizing s with
  | nil => exact ⟨le_refl _, le_refl _⟩
  | cons e rest ih =>
    have hstep := applyTimedOp_time_mono e.1 e.2 s i
    have hch : List.Chain (fun a b => a ≤ b)
        (applyTimedOp e.1 e.2 s).inner.stop_watch (rest.map Prod.snd) := by
      rw [applyTimedOp_stop_watch]
      exact (List.chain_cons.mp (by simpa using hclock)).2
    have hrest := ih (applyTimedOp e.1 e.2 s) hch
    have hrun : runTrace (e :: rest) s =
        runTrace rest (applyTimedOp e.1 e.2 s) := rfl
    rw [hrun]
    exact ⟨le_trans hstep.1 hrest.1, le_trans hstep.2 hrest.2⟩

/-- Witness for C5 on a concrete state and a two-event trace. -/
theorem time_counters_monotone_witness :
    List.Chain (fun a b => a ≤ b) runningWitnessState.inner.stop_watch
      (traceWitnessEvents.map Prod.snd) ∧
    kernelTimeAt runningWitnessState 0 ≤
      kernelTimeAt (runTrace traceWitnessEvents runningWitnessState) 0 ∧
    userTimeAt runningWitnessState 0 ≤
      userTimeAt (runTrace traceWitnessEvents runningWitnessState) 0 := by
  have hch : List.Chain (fun a b => a ≤ b)
      runningWitnessState.inner.stop_watch
      (traceWitnessEvents.map Prod.snd) :=
    List.Chain.cons (by decide) (List.Chain.cons (by decide) List.Chain.nil)
  exact ⟨hch,
    (time_counters_monotone runningWitnessState traceWitnessEvents 0 hch).1,
    (time_counters_monotone runningWitnessState traceWitnessEvents 0 hch).2⟩

/-- Witness for the amended C4 at a concrete one-task boot state. -/
theorem run_first_task_spec_witness :
    0 < (initState 2 1 0 (fun _ => 9)).inner.tasks.length ∧
    ∃ o, run_first_task 5 (initState 2 1 0 (fun _ => 9)) = some o ∧
      statusAt o.state 0 = TaskStatus.Running ∧
      o.state.inner.stop_watch = 5 ∧
      o.state.inner.current_task =
        (initState 2 1 0 (fun _ => 9)).inner.current_task ∧
      o.switch_current = TaskContext.zero_init ∧
      o.switch_next = ((initState 2 1 0 (fun _ => 9)).inner.tasks.getD 0
        TaskControlBlock.uninit).task_cx ∧
      (∀ j, j ≠ 0 →
        statusAt o.state j = statusAt (initState 2 1 0 (fun _ => 9)) j) :=
  ⟨by decide, run_first_task_spec 5 (initState 2 1 0 (fun _ => 9)) (by decide)⟩

/-! ## Status bookkeeping for the reachability invariant -/

theorem statusAt_mark_current_suspended (now : Nat) (s : KernelState)
    (j : Nat) :
    statusAt (mark_current_suspended now s) j =
      if j = s.inner.current_task ∧
          s.inner.current_task < s.inner.tasks.length
      then TaskStatus.Ready else statusAt s j := by
  simp only [mark_current_suspended_eq, statusAt]
  rw [getD_set_cases]
  by_cases h : j = s.inner.current_task ∧
      s.inner.current_task < s.inner.tasks.length <;> simp [h]

theorem statusAt_mark_current_exited (now : Nat) (s : KernelState)
    (j : Nat) :
    statusAt (mark_current_exited now s) j =
      if j = s.inner.current_task ∧
          s.inner.current_task < s.inner.tasks.length
      then TaskStatus.Exited else statusAt s j := by
  simp only [mark_current_exited_eq, statusAt]
  rw [getD_set_cases]
  by_cases h : j = s.inner.current_task ∧
      s.inner.current_task < s.inner.tasks.length <;> simp [h]

theorem statusAt_user_time_start (now : Nat) (s : KernelState) (j : Nat) :
    statusAt (user_time_start now s) j = statusAt s j := by
  simp only [user_time_start_eq, statusAt]
  rw [getD_set_cases]
  by_cases h : j = s.inner.current_task ∧
      s.inner.current_task < s.inner.tasks.length
  · obtain ⟨rfl, hc⟩ := h
    simp [hc]
  · simp [h]

theorem statusAt_user_time_end (now : Nat) (s : KernelState) (j : Nat) :
    statusAt (user_time_end now s) j = statusAt s j := by
  simp only [user_time_end_eq, statusAt]
  rw [getD_set_cases]
  by_cases h : j = s.inner.current_task ∧
      s.inner.current_task < s.inner.tasks.length
  · obtain ⟨rfl, hc⟩ := h
    simp [hc]
  · simp [h]

theorem statusAt_initState (cap n r : Nat) (f : Nat → Nat) (i : Nat) :
    statusAt (initState cap n r f) i =
      if i < cap then
        (if i < n then TaskStatus.Ready else TaskStatus.UnInit)
      else TaskStatus.UnInit := by
  simp only [initState, statusAt]
  by_cases h : i < cap
  · rw [List.range_eq_range', getD_map_range' _ _ cap 0 i h]
    simp only [Nat.zero_add, h, if_true]
    by_cases hn : i < n <;> simp [initTCB, hn, TaskControlBlock.uninit]
  · rw [List.getD_eq_default _ _ (by simp; omega)]
    simp [h, TaskControlBlock.uninit]

theorem bootInv_init (cap n r : Nat) (f : Nat → Nat)
    (hn : 1 ≤ n) (hcap : n ≤ cap) : BootInv (initState cap n r f) := by
  refine ⟨hn, ?_, rfl, ?_, ?_⟩
  · simp [initState]
    omega
  · intro i hi
    rw [statusAt_initState]
    simp only [initState] at hi
    have hic : i < cap := by omega
    simp [hic, hi]
  · intro j hj
    rw [statusAt_initState]
    simp only [initState] at hj
    by_cases hjc : j < cap
    · have hjn : ¬ j < n := by omega
      simp [hjc, hjn]
    · simp [hjc]

theorem startedInv_first (now : Nat) (s : KernelState) (o : FirstTaskOutcome)
    (hb : BootInv s) (heq : run_first_task now s = some o) :
    StartedInv o.state := by
  obtain ⟨hn, hlen, hcur0, hready, hhi⟩ := hb
  have h0 : 0 < s.inner.tasks.length := by omega
  rw [run_first_task_eq now s h0] at heq
  have ho := Option.some.inj heq
  rw [← ho]
  have hstat : ∀ j,
      ((s.inner.tasks.set 0
          { s.inner.tasks.getD 0 TaskControlBlock.uninit with
              task_status := TaskStatus.Running }).getD j
        TaskControlBlock.uninit).task_status =
        if j = 0 then TaskStatus.Running else statusAt s j := by
    intro j
    rw [getD_set_cases]
    by_cases hj : j = 0
    · subst hj
      simp [h0]
    · simp only [hj, false_and, if_false]
      rfl
  refine ⟨hn, ?_, ?_, ?_, ?_, Or.inl ⟨?_, ?_⟩⟩
  · show s.num_app ≤ (s.inner.tasks.set 0 _).length
    rw [List.length_set]
    exact hlen
  · show s.inner.current_task < s.num_app
    omega
  · intro i hi
    have hi' : i < s.num_app := hi
    show ((s.inner.tasks.set 0 _).getD i TaskControlBlock.uninit).task_status ≠
      TaskStatus.UnInit
    rw [hstat i]
    by_cases hi0 : i = 0
    · simp [hi0]
    · simp only [hi0, if_false]
      rw [hready i hi']
      simp
  · intro j hj
    have hj' : s.num_app ≤ j := hj
    show ((s.inner.tasks.set 0 _).getD j TaskControlBlock.uninit).task_status =
      TaskStatus.UnInit
    rw [hstat j]
    have hj0 : j ≠ 0 := by omega
    simp only [hj0, if_false]
    exact hhi j hj'
  · show ((s.inner.tasks.set 0 _).getD s.inner.current_task
      TaskControlBlock.uninit).task_status = TaskStatus.Running
    rw [hstat s.inner.current_task]
    simp [hcur0]
  · intro j hj
    have hj' : j ≠ s.inner.current_task := hj
    show ((s.inner.tasks.set 0 _).getD j TaskControlBlock.uninit).task_status ≠
      TaskStatus.Running
    rw [hstat j]
    have hj0 : j ≠ 0 := by omega
    simp only [hj0, if_false]
    by_cases hjn : j < s.num_app
    · rw [hready j hjn]
      simp
    · rw [hhi j (by omega)]
      simp

/-! ## Invariant preservation through the scheduling operations -/

theorem midInv_mark_current_suspended (now : Nat) (s : KernelState)
    (h : StartedInv s) : MidInv (mark_current_suspended now s) := by
  obtain ⟨hn, hlen, hcur, hnoun, hhi, hdisj⟩ := h
  have hclen : s.inner.current_task < s.inner.tasks.length := by omega
  refine ⟨hn, ?_, hcur, ?_, ?_, ?_⟩
  · show s.num_app ≤ (mark_current_suspended now s).inner.tasks.length
    rw [mark_current_suspended_eq]
    simp only [List.length_set]
    exact hlen
  · intro i hi
    rw [statusAt_mark_current_suspended]
    by_cases hic : i = s.inner.current_task
    · simp [hic, hclen]
    · simp only [hic, false_and, if_false]
      exact hnoun i hi
  · intro j hj
    have hj' : s.num_app ≤ j := hj
    rw [statusAt_mark_current_suspended]
    have hjc : j ≠ s.inner.current_task := by omega
    simp only [hjc, false_and, if_false]
    exact hhi j hj
  · intro j
    rw [statusAt_mark_current_suspended]
    by_cases hjc : j = s.inner.current_task ∧
        s.inner.current_task < s.inner.tasks.length
    · simp [hjc]
    · simp only [hjc, if_false]
      have hjne : j ≠ s.inner.current_task := by
        intro he
        exact hjc ⟨he, hclen⟩
      cases hdisj with
      | inl hd => exact hd.2 j hjne
      | inr hd => exact hd.2 j

theorem midInv_mark_current_exited (now : Nat) (s : KernelState)
    (h : StartedInv s) : MidInv (mark_current_exited now s) := by
  obtain ⟨hn, hlen, hcur, hnoun, hhi, hdisj⟩ := h
  have hclen : s.inner.current_task < s.inner.tasks.length := by omega
  refine ⟨hn, ?_, hcur, ?_, ?_, ?_⟩
  · show s.num_app ≤ (mark_current_exited now s).inner.tasks.length
    rw [mark_current_exited_eq]
    simp only [List.length_set]
    exact hlen
  · intro i hi
    rw [statusAt_mark_current_exited]
    by_cases hic : i = s.inner.current_task
    · simp [hic, hclen]
    · simp only [hic, false_and, if_false]
      exact hnoun i hi
  · intro j hj
    have hj' : s.num_app ≤ j := hj
    rw [statusAt_mark_current_exited]
    have hjc : j ≠ s.inner.current_task := by omega
    simp only [hjc, false_and, if_false]
    exact hhi j hj
  · intro j
    rw [statusAt_mark_current_exited]
    by_cases hjc : j = s.inner.current_task ∧
        s.inner.current_task < s.inner.tasks.length
    · simp [hjc]
    · simp only [hjc, if_false]
      have hjne : j ≠ s.inner.current_task := by
        intro he
        exact hjc ⟨he, hclen⟩
      cases hdisj with
      | inl hd => exact hd.2 j hjne
      | inr hd => exact hd.2 j

theorem startedInv_run_next_task (tswitch : Nat) (s : KernelState)
    (h : MidInv s) : StartedInv (run_next_task tswitch s) := by
  obtain ⟨hn, hlen, hcur, hnoun, hhi, hnorun⟩ := h
  cases hfind : find_next_task s with
  | none =>
    have hall : ∀ i, i < s.num_app → statusAt s i = TaskStatus.Exited := by
      intro i hi
      have hnr := (find_next_task_none_iff s).mp hfind i hi
      have hnu := hnoun i hi
      have hnn := hnorun i
      cases hstat : statusAt s i
      · exact absurd hstat hnu
      · exact absurd hstat hnr
      · exact absurd hstat hnn
      · rfl
    have heq : run_next_task tswitch s =
        { s with
          output := s.output ++ completedLines (get_switch_time_count s) } := by
      simp [run_next_task, hfind]
    rw [heq]
    have hsame : ∀ j, statusAt
        { s with
          output := s.output ++ completedLines (get_switch_time_count s) } j =
        statusAt s j :=
      fun _ => rfl
    refine ⟨hn, hlen, hcur, ?_, ?_, Or.inr ⟨?_, ?_⟩⟩
    · intro i hi
      rw [hsame]
      exact hnoun i hi
    · intro j hj
      rw [hsame]
      exact hhi j hj
    · intro i hi
      rw [hsame]
      exact hall i hi
    · intro j
      rw [hsame]
      exact hnorun j
  | some next =>
    obtain ⟨hnextlt, hnextready⟩ := find_next_task_some_props s next hfind
    have hnextlen : next < s.inner.tasks.length := by omega
    have heq : run_next_task tswitch s =
        { s with
          inner :=
            { tasks := s.inner.tasks.set next
                { s.inner.tasks.getD next TaskControlBlock.uninit with
                    task_status := .Running },
              current_task := next,
              stop_watch := s.inner.stop_watch },
          switch_time_count := s.switch_time_count + tswitch } := by
      simp [run_next_task, hfind]
    rw [heq]
    have hstat : ∀ j, statusAt { s with
        inner :=
          { tasks := s.inner.tasks.set next
              { s.inner.tasks.getD next TaskControlBlock.uninit with
                  task_status := .Running },
            current_task := next,
            stop_watch := s.inner.stop_watch },
        switch_time_count := s.switch_time_count + tswitch } j =
        if j = next then TaskStatus.Running else statusAt s j := by
      intro j
      show ((s.inner.tasks.set next _).getD j TaskControlBlock.uninit).task_status = _
      rw [getD_set_cases]
      by_cases hj : j = next
      · subst hj
        simp [hnextlen]
      · simp only [hj, false_and, if_false]
        rfl
    refine ⟨hn, ?_, ?_, ?_, ?_, Or.inl ⟨?_, ?_⟩⟩
    · show s.num_app ≤ (s.inner.tasks.set next _).length
      rw [List.length_set]
      exact hlen
    · exact hnextlt
    · intro i hi
      rw [hstat]
      by_cases hin : i = next
      · simp [hin]
      · simp only [hin, if_false]
        exact hnoun i hi
    · intro j hj
      have hj2 : s.num_app ≤ j := hj
      rw [hstat]
      have hjn : j ≠ next := by omega
      simp only [hjn, if_false]
      exact hhi j hj2
    · rw [hstat]
      simp
    · intro j hj
      rw [hstat]
      have hjn : j ≠ next := hj
      simp only [hjn, if_false]
      exact hnorun j

theorem startedInv_user_time_start (now : Nat) (s : KernelState)
    (h : StartedInv s) : StartedInv (user_time_start now s) := by
  obtain ⟨hn, hlen, hcur, hnoun, hhi, hdisj⟩ := h
  refine ⟨hn, ?_, hcur, ?_, ?_, ?_⟩
  · show s.num_app ≤ (user_time_start now s).inner.tasks.length
    rw [user_time_start_eq]
    simp only [List.length_set]
    exact hlen
  · intro i hi
    rw [statusAt_user_time_start]
    exact hnoun i hi
  · intro j hj
    rw [statusAt_user_time_start]
    exact hhi j hj
  · cases hdisj with
    | inl hd =>
      refine Or.inl ⟨?_, ?_⟩
      · rw [statusAt_user_time_start]
        exact hd.1
      · intro j hj
        rw [statusAt_user_time_start]
        exact hd.2 j hj
    | inr hd =>
      refine Or.inr ⟨?_, ?_⟩
      · intro i hi
        rw [statusAt_user_time_start]
        exact hd.1 i hi
      · intro j
        rw [statusAt_user_time_start]
        exact hd.2 j

theorem startedInv_user_time_end (now : Nat) (s : KernelState)
    (h : StartedInv s) : StartedInv (user_time_end now s) := by
  obtain ⟨hn, hlen, hcur, hnoun, hhi, hdisj⟩ := h
  refine ⟨hn, ?_, hcur, ?_, ?_, ?_⟩
  · show s.num_app ≤ (user_time_end now s).inner.tasks.length
    rw [user_time_end_eq]
    simp only [List.length_set]
    exact hlen
  · intro i hi
    rw [statusAt_user_time_end]
    exact hnoun i hi
  · intro j hj
    rw [statusAt_user_time_end]
    exact hhi j hj
  · cases hdisj with
    | inl hd =>
      refine Or.inl ⟨?_, ?_⟩
      · rw [statusAt_user_time_end]
        exact hd.1
      · intro j hj
        rw [statusAt_user_time_end]
        exact hd.2 j hj
    | inr hd =>
      refine Or.inr ⟨?_, ?_⟩
      · intro i hi
        rw [statusAt_user_time_end]
        exact hd.1 i hi
      · intro j
        rw [statusAt_user_time_end]
        exact hd.2 j

theorem reachable_inv (b : Bool) (s : KernelState) (h : Reachable b s) :
    (b = false → BootInv s) ∧ (b = true → StartedInv s) := by
  induction h with
  | init cap n r f hn hcap =>
    exact ⟨fun _ => bootInv_init cap n r f hn hcap, fun hh => by simp at hh⟩
  | first now s o hr heq ih =>
    exact ⟨fun hh => by simp at hh,
      fun _ => startedInv_first now s o (ih.1 rfl) heq⟩
  | suspend now tswitch s hr ih =>
    exact ⟨fun hh => by simp at hh,
      fun _ => startedInv_run_next_task tswitch _
        (midInv_mark_current_suspended now s (ih.2 rfl))⟩
  | exited now tswitch s hr ih =>
    exact ⟨fun hh => by simp at hh,
      fun _ => startedInv_run_next_task tswitch _
        (midInv_mark_current_exited now s (ih.2 rfl))⟩
  | uts now s hr ih =>
    exact ⟨fun hh => by simp at hh,
      fun _ => startedInv_user_time_start now s (ih.2 rfl)⟩
  | ute now s hr ih =>
    exact ⟨fun hh => by simp at hh,
      fun _ => startedInv_user_time_end now s (ih.2 rfl)⟩

/-- C3: in every reachable state the number of `Running` TCBs is at most
one; before the first dispatch every TCB is `Ready` or `UnInit` (and none
is `Running`); after the first dispatch exactly one TCB is `Running`
until every application slot has `Exited`, after which none is. -/
theorem running_exclusive (b : Bool) (s : KernelState) (h : Reachable b s) :
    countRunning s ≤ 1 ∧
    (b = false → ∀ t ∈ s.inner.tasks,
      t.task_status = TaskStatus.Ready ∨ t.task_status = TaskStatus.UnInit) ∧
    (b = true → countRunning s = 1 ∨
      (countRunning s = 0 ∧
        ∀ i, i < s.num_app → statusAt s i = TaskStatus.Exited)) := by
  have hinv := reachable_inv b s h
  cases b with
  | false =>
    obtain ⟨hn, hlen, hcur, hready, hhi⟩ := hinv.1 rfl
    have hnorun : ∀ j, statusAt s j ≠ TaskStatus.Running := by
      intro j
      by_cases hjn : j < s.num_app
      · rw [hready j hjn]
        simp
      · rw [hhi j (by omega)]
        simp
    have hzero : countRunning s = 0 :=
      countP_eq_zero_of_getD _ TaskControlBlock.uninit _
        (fun j _ => decide_eq_false (hnorun j))
    refine ⟨by omega, fun _ => ?_, fun hc => by simp at hc⟩
    intro t ht
    obtain ⟨idx, hidx, hget⟩ := List.mem_iff_getElem.mp ht
    have hts : t.task_status = statusAt s idx := by
      rw [statusAt, List.getD_eq_getElem _ _ hidx, hget]
    by_cases hin : idx < s.num_app
    · rw [hts, hready idx hin]
      exact Or.inl rfl
    · rw [hts, hhi idx (by omega)]
      exact Or.inr rfl
  | true =>
    obtain ⟨hn, hlen, hcur, hnoun, hhi, hdisj⟩ := hinv.2 rfl
    cases hdisj with
    | inl hd =>
      obtain ⟨hrun, hothers⟩ := hd
      have hle : countRunning s ≤ 1 :=
        countP_le_one_of_getD _ TaskControlBlock.uninit _
          s.inner.current_task
          (fun j _ hne => decide_eq_false (hothers j hne))
      have hpos : 0 < countRunning s :=
        countP_pos_of_getD _ TaskControlBlock.uninit _
          s.inner.current_task (by omega) (decide_eq_true hrun)
      exact ⟨hle, fun hf => by simp at hf, fun _ => Or.inl (by omega)⟩
    | inr hd =>
      obtain ⟨hall, hnone⟩ := hd
      have hzero : countRunning s = 0 :=
        countP_eq_zero_of_getD _ TaskControlBlock.uninit _
          (fun j _ => decide_eq_false (hnone j))
      exact ⟨by omega, fun hf => by simp at hf,
        fun _ => Or.inr ⟨hzero, hall⟩⟩

/-- Witness for C3 at the concrete boot state of a one-app system. -/
theorem running_exclusive_witness :
    countRunning (initState 2 1 0 (fun _ => 0)) ≤ 1 ∧
    (false = false → ∀ t ∈ (initState 2 1 0 (fun _ => 0)).inner.tasks,
      t.task_status = TaskStatus.Ready ∨
        t.task_status = TaskStatus.UnInit) ∧
    (false = true → countRunning (initState 2 1 0 (fun _ => 0)) = 1 ∨
      (countRunning (initState 2 1 0 (fun _ => 0)) = 0 ∧
        ∀ i, i < (initState 2 1 0 (fun _ => 0)).num_app →
          statusAt (initState 2 1 0 (fun _ => 0)) i = TaskStatus.Exited)) :=
  running_exclusive false (initState 2 1 0 (fun _ => 0))
    (Reachable.init 2 1 0 (fun _ => 0) (by omega) (by omega))

end OsTask
